import Mathlib

/-!
Verification of the homer control core (src/main.rs, src/util.rs, src/buttons.rs,
src/wifi.rs) against its natural-language specification.

The Rust code is shallowly embedded: pure functions become Lean functions, the
stateful loops become explicit state-passing step functions, machine integers
become `Nat`/`Int` (with explicit wrap-around where the source uses wrapping
atomics), and library behaviour used by the code (the `json` crate's value type
and equality, `str::parse`) is modelled from its documented semantics.
-/

set_option autoImplicit false

namespace Homer

/-! ## JSON values

Model of the `json` crate's `JsonValue` enum (variants `Null`, `Short`,
`String`, `Number`, `Boolean`, `Object`, `Array`).  The numeric payload is
irrelevant to every code path modelled here except the literal `42` and the
request-id counter, so it is carried as an `Int`.  Objects keep their fields as
an ordered association list with unique keys. -/

inductive JsonValue where
  | null
  | short (s : String)
  | str (s : String)
  | num (n : Int)
  | boolean (b : Bool)
  | obj (fields : List (String × JsonValue))
  | arr (elems : List JsonValue)

/-- `json[key]` on a `JsonValue`: field lookup on objects, `Null` otherwise
(the `json` crate's `Index` implementation). -/
def JsonValue.index (j : JsonValue) (k : String) : JsonValue :=
  match j with
  | .obj fields => (fields.lookup k).getD .null
  | _ => .null

/-- `j == JsonValue::String(s)` per the `json` crate's `PartialEq`, which
compares `Short` and `String` variants by their text. -/
def jsonEqStringValue (j : JsonValue) (s : String) : Bool :=
  match j with
  | .short t => t = s
  | .str t => t = s
  | _ => false

/-- True exactly on the two string-carrying variants of `JsonValue`. -/
def JsonValue.isStringLike : JsonValue → Bool
  | .short _ => true
  | .str _ => true
  | _ => false

/-! ## `traverse` (src/util.rs lines 158-181)

Walks a fixed path of object fields and extracts the final value only when it
is a string (`String` or `Short` variant). -/

def traverse (json : JsonValue) (path : List String) : Option String :=
  match path with
  | [] =>
    match json with
    | .str s => some s
    | .short s => some s
    | _ => none
  | item :: rest =>
    match json with
    | .obj fields =>
      match fields.lookup item with
      | none => none
      | some v => traverse v rest
    | _ => none

/-- The value sitting at a path of object fields, when every intermediate step
is an object with that field.  Specification-side companion of `traverse`,
used to state what happens when the value at the path is not a string. -/
def getPath (json : JsonValue) (path : List String) : Option JsonValue :=
  match path with
  | [] => some json
  | item :: rest =>
    match json with
    | .obj fields =>
      match fields.lookup item with
      | none => none
      | some v => getPath v rest
    | _ => none

/-! ## The state store

`HashMap<String, String>` from the orchestrator loop, modelled extensionally
as a partial map.  Both the State Store (`states`) and the Render Cache
(`last_state`) in src/main.rs have this type. -/

def Store := String → Option String

def Store.get (m : Store) (k : String) : Option String := m k

def Store.insert (m : Store) (k v : String) : Store :=
  fun x => if x = k then some v else m x

def Store.containsKey (m : Store) (k : String) : Bool := (m k).isSome

def Store.empty : Store := fun _ => none

def Store.ofList (l : List (String × String)) : Store := fun k => l.lookup k

theorem Store.get_insert_self (m : Store) (k v : String) :
    (m.insert k v).get k = some v := by
  simp [Store.get, Store.insert]

theorem Store.get_insert_ne (m : Store) (k v x : String) (h : x ≠ k) :
    (m.insert k v).get x = m.get x := by
  simp [Store.get, Store.insert, h]

/-! ## Rust integer parsing (`str::parse::<i64>`)

`i64::from_str`: optional sign, at least one ASCII digit, nothing else, and
the value must fit in `i64`. -/

def digitsToNat (cs : List Char) : Nat :=
  cs.foldl (fun n c => n * 10 + (c.toNat - 48)) 0

def parse_i64 (s : String) : Option Int :=
  let cs := s.data
  let sign : Int := match cs with
    | '-' :: _ => -1
    | _ => 1
  let digits : List Char := match cs with
    | '-' :: rest => rest
    | '+' :: rest => rest
    | _ => cs
  if digits = [] then none
  else if ¬ digits.all Char.isDigit then none
  else
    let v : Int := sign * digitsToNat digits
    if -(2 ^ 63) ≤ v ∧ v < 2 ^ 63 then some v else none

/-! ## Rust float parsing and rounding (the Mirror-binding numeric path)

src/main.rs renders `st.parse::<f64>().ok().map_or("", |f| f.round().to_string())`.
`f64::from_str` on a plain decimal literal followed by `f64::round`
(round half away from zero) is modelled exactly over rationals.  Grammar forms
the code's data never takes and that the claims never exercise are outside the
model: exponent notation, `inf`/`nan`, values beyond 2^53 (where `f64` loses
integer precision), literals within one `f64` ulp of a half-integer, and the
`-0` rendering of negative values rounding to zero. -/

/-- Decimal-literal decomposition: `some (neg, n, k)` means the literal
denotes `(if neg then -1 else 1) * n / 10 ^ k`. -/
def parse_f64_parts (s : String) : Option (Bool × Nat × Nat) :=
  let cs := s.data
  let neg : Bool := match cs with
    | '-' :: _ => true
    | _ => false
  let rest : List Char := match cs with
    | '-' :: r => r
    | '+' :: r => r
    | _ => cs
  let intPart := rest.takeWhile Char.isDigit
  let rest2 := rest.drop intPart.length
  match rest2 with
  | [] => if intPart = [] then none else some (neg, digitsToNat intPart, 0)
  | '.' :: fracRest =>
    let fracPart := fracRest.takeWhile Char.isDigit
    if fracRest.drop fracPart.length ≠ [] then none
    else if intPart = [] ∧ fracPart = [] then none
    else some (neg,
      digitsToNat intPart * 10 ^ fracPart.length + digitsToNat fracPart,
      fracPart.length)
  | _ => none

/-- The exact rational value of a decimal literal (`f64::from_str` up to
`f64` representation error). -/
def parse_f64_q (s : String) : Option ℚ :=
  (parse_f64_parts s).map (fun p =>
    (if p.1 then (-1 : ℚ) else 1) * p.2.1 / 10 ^ p.2.2)

/-- `f64::round`: round half away from zero. -/
def roundHalfAway (q : ℚ) : Int :=
  if 0 ≤ q then ⌊q + 1 / 2⌋ else -⌊-q + 1 / 2⌋

/-- Parse then round, computed over integers so it evaluates in the kernel;
`parse_f64_round_coherent` below shows it is exactly `roundHalfAway` applied
to the parsed rational. -/
def parse_f64_round (s : String) : Option Int :=
  (parse_f64_parts s).map (fun p =>
    let mag : Nat := (2 * p.2.1 + 10 ^ p.2.2) / (2 * 10 ^ p.2.2)
    if p.1 then -(mag : Int) else (mag : Int))

theorem roundHalfAway_nonneg_div (n k : Nat) :
    roundHalfAway ((n : ℚ) / 10 ^ k) = ((2 * n + 10 ^ k) / (2 * 10 ^ k) : ℕ) := by
  have hk : (0 : ℚ) < 10 ^ k := by positivity
  have hq : (0 : ℚ) ≤ (n : ℚ) / 10 ^ k := by positivity
  rw [roundHalfAway, if_pos hq]
  have heq : (n : ℚ) / 10 ^ k + 1 / 2 =
      ((2 * n + 10 ^ k : ℕ) : ℚ) / ((2 * 10 ^ k : ℕ) : ℚ) := by
    push_cast
    field_simp
    ring
  rw [heq, Rat.floor_natCast_div_natCast]
  exact (Int.natCast_div _ _).symm

theorem roundHalfAway_parts (neg : Bool) (n k : Nat) :
    (if neg then -((((2 * n + 10 ^ k) / (2 * 10 ^ k) : ℕ)) : Int)
     else ((((2 * n + 10 ^ k) / (2 * 10 ^ k) : ℕ)) : Int))
      = roundHalfAway ((if neg then (-1 : ℚ) else 1) * n / 10 ^ k) := by
  cases neg with
  | false =>
    rw [if_neg (by simp), if_neg (by simp), one_mul, roundHalfAway_nonneg_div]
  | true =>
    rw [if_pos rfl, if_pos rfl]
    rcases Nat.eq_zero_or_pos n with hn | hn
    · subst hn
      have h1 : (10 : ℕ) ^ k / (2 * 10 ^ k) = 0 := by
        have hk : 0 < 10 ^ k := by positivity
        exact Nat.div_eq_of_lt (by omega)
      have h2 : ((-1 : ℚ)) * ((0 : ℕ) : ℚ) / 10 ^ k = ((0 : ℕ) : ℚ) / 10 ^ k := by
        norm_num
      rw [h2, roundHalfAway_nonneg_div]
      simp [h1]
    · have h1 : (0 : ℚ) < (n : ℚ) / 10 ^ k := by
        have hn2 : (0 : ℚ) < (n : ℚ) := by exact_mod_cast hn
        positivity
      have hq : ((-1 : ℚ)) * (n : ℚ) / 10 ^ k < 0 := by
        have : ((-1 : ℚ)) * (n : ℚ) / 10 ^ k = -((n : ℚ) / 10 ^ k) := by ring
        rw [this]
        exact neg_lt_zero.mpr h1
      rw [roundHalfAway, if_neg (not_le.mpr hq)]
      have hneg : -((-1 : ℚ) * (n : ℚ) / 10 ^ k) = (n : ℚ) / 10 ^ k := by ring
      rw [hneg]
      have h3 := roundHalfAway_nonneg_div n k
      rw [roundHalfAway, if_pos (le_of_lt h1)] at h3
      rw [h3]

theorem parse_f64_round_coherent (s : String) :
    parse_f64_round s = (parse_f64_q s).map roundHalfAway := by
  rw [parse_f64_round, parse_f64_q]
  cases hp : parse_f64_parts s with
  | none => rfl
  | some p =>
    obtain ⟨neg, n, k⟩ := p
    simp only [Option.map_some', Option.some.injEq]
    exact roundHalfAway_parts neg n k

/-! ## Comparison values (src/util.rs lines 9-70)

`CmpValue` and its `PartialEq<Option<&String>>` implementation: the tracked
string value is parsed against the comparison's declared type before equality
is tested; a missing value compares unequal.  The `Float` payload is carried
as the exact rational value of the literal. -/

inductive CmpValue where
  | Int (i : Int)
  | Str (s : String)
  | Float (f : ℚ)
deriving DecidableEq

def CmpValue.eqOptString (cmp : CmpValue) (other : Option String) : Bool :=
  match other with
  | some other =>
    match cmp with
    | .Int i => parse_i64 other == some i
    | .Str s => s == other
    | .Float f => parse_f64_q other == some f
  | none => false

/-! ## Actions and their serialization (src/util.rs lines 72-108)

`HAACTION_ID` is a process-wide `AtomicI64` starting at 1024; `as_json` stamps
`fetch_add(1, Relaxed)` into the `id` field.  The atomic is modelled by
explicit counter passing; `fetch_add` returns the old value and stores the
incremented value with `i64` wrap-around. -/

inductive HAAction where
  | Scene (s : String)
  | Service (ha_id service : String)
deriving DecidableEq

def HAACTION_ID_INIT : Int := 1024

/-- Two's-complement wrap of an unbounded integer into the `i64` range. -/
def i64_wrap (x : Int) : Int := (x + 2 ^ 63) % 2 ^ 64 - 2 ^ 63

def HAAction.as_json (a : HAAction) (counter : Int) : JsonValue × Int :=
  match a with
  | .Scene s =>
    (.obj [("type", .str "call_service"), ("domain", .str "scene"),
           ("service", .str "turn_on"), ("target", .obj [("entity_id", .str s)]),
           ("service_data", .obj []), ("id", .num counter)],
     i64_wrap (counter + 1))
  | .Service ha_id service =>
    (.obj [("type", .str "call_service"), ("domain", .str "light"),
           ("service", .str service), ("target", .obj [("entity_id", .str ha_id)]),
           ("service_data", .obj []), ("id", .num counter)],
     i64_wrap (counter + 1))

/-- Serialize a list of actions in dispatch order, threading the process-wide
request-id counter through `as_json`. -/
def serialize_all : List HAAction → Int → List JsonValue × Int
  | [], c => ([], c)
  | a :: rest, c =>
    let p := a.as_json c
    let q := serialize_all rest p.2
    (p.1 :: q.1, q.2)

/-- The `id` field stamped into a serialized request. -/
def json_id (j : JsonValue) : Int :=
  match j.index "id" with
  | .num n => n
  | _ => 0

/-- The sequence of request identifiers produced by a dispatch sequence,
starting from the process-wide initial counter value. -/
def ids_list (actions : List HAAction) : List Int :=
  ((serialize_all actions HAACTION_ID_INIT).1).map json_id

/-! ## Bindings (src/util.rs lines 110-156) -/

inductive HAConnect where
  | Text (line : Nat) (text : String) (color : Nat)
  | Button (button : Nat) (ha_id : String) (cmp : CmpValue)
      (text_on text_off : String) (action_on action_off : HAAction) (color : Nat)
  | Line (line : Nat) (ha_id : String) (text : String) (make_int : Bool) (color : Nat)
deriving DecidableEq

def HAConnect.is_on (c : HAConnect) (state : Store) : Bool :=
  match c with
  | .Button _ ha_id cmp _ _ _ _ _ => cmp.eqOptString (state.get ha_id)
  | _ => false

/-- `HAConnect::ha_id()`: the entity identity of a binding, with the static
text standing in for `Text` bindings.  This doubles as the Render Cache key
used by `render_states`. -/
def HAConnect.ha_id : HAConnect → String
  | .Text _ text _ => text
  | .Button _ i _ _ _ _ _ _ => i
  | .Line _ i _ _ _ => i

/-! ## Draw instructions (src/display.rs lines 15-85)

Colors are raw `u16` RGB565 values (`Rgb565` round-trips `RawU16`); positions
are the three `DrawPos` variants; the only font the core ever names is
`PROFONT_24_POINT`. -/

inductive DrawPos where
  | Button (b : Nat)
  | Pos (x y : Int)
  | Box (x y : Int) (w h : Nat)
deriving DecidableEq

inductive Font where
  | profont24
deriving DecidableEq

def WHITE : Nat := 0xffff

inductive DrawCmd where
  | Clear (color : Nat) (pos : DrawPos)
  | Erase (color : Nat)
  | Text (pos : DrawPos) (font : Option Font) (text : String)
      (text_color : Nat) (background : Option Nat)
deriving DecidableEq

/-! ## Differential renderer (src/main.rs lines 288-380)

`render_states` walks the binding list; for each binding it computes the
desired rendered text, compares it against the Render Cache entry under the
binding's render key, and on a difference updates the cache and emits exactly
one `DrawCmd::Text`. -/

/-- The rendered text of a Mirror (`Line`) binding: template followed by the
tracked value, optionally parsed as a float and rounded. -/
def line_render (text : String) (make_int : Bool) (st : String) : String :=
  if make_int then
    text ++ (((parse_f64_round st).map (fun f => toString f)).getD "")
  else
    text ++ st

/-- The rendered text of a Toggle (`Button`) binding. -/
def button_disp (cmp : CmpValue) (cur : Option String) (text_on text_off : String) :
    String :=
  if cmp.eqOptString cur then text_on else text_off

/-- One arm of the `for c in connect` loop of `render_states`: returns the
updated Render Cache and the draw instructions sent for this binding. -/
def renderStep (states : Store) (last_state : Store) (c : HAConnect) :
    Store × List DrawCmd :=
  match c with
  | .Text line text color =>
    if some text ≠ last_state.get text then
      (last_state.insert text text,
       [DrawCmd.Text (.Pos 10 (30 * ((line : Int) + 2))) (some .profont24) text
          color (some WHITE)])
    else (last_state, [])
  | .Line line ha_id text make_int color =>
    match states.get ha_id with
    | some st =>
      let line_str := line_render text make_int st
      if some line_str ≠ last_state.get ha_id then
        (last_state.insert ha_id line_str,
         [DrawCmd.Text (.Pos 10 (30 * ((line : Int) + 2))) (some .profont24)
            line_str color (some WHITE)])
      else (last_state, [])
    | none => (last_state, [])
  | .Button button ha_id cmp text_on text_off _ _ color =>
    let disp := button_disp cmp (states.get ha_id) text_on text_off
    if some disp ≠ last_state.get ha_id then
      (last_state.insert ha_id disp,
       [DrawCmd.Text (.Button button) none disp color (some WHITE)])
    else (last_state, [])

def render_states (connect : List HAConnect) (states : Store) (last_state : Store) :
    Store × List DrawCmd :=
  match connect with
  | [] => (last_state, [])
  | c :: rest =>
    let p := renderStep states last_state c
    let q := render_states rest states p.1
    (q.1, p.2 ++ q.2)

/-- The text a binding wants rendered under the current State Store, `none`
when a `Line` binding's tracked entity has no stored value (in which case the
binding renders nothing). -/
def desired (states : Store) : HAConnect → Option String
  | .Text _ text _ => some text
  | .Line _ ha_id text make_int _ =>
    (states.get ha_id).map (fun st => line_render text make_int st)
  | .Button _ ha_id cmp text_on text_off _ _ _ =>
    some (button_disp cmp (states.get ha_id) text_on text_off)

/-! ## Orchestrator event handling (src/main.rs lines 226-282)

The two `select!` arms of the main loop, as a step function over the
loop-local state (State Store, Render Cache, request-id counter).  The
outbound command channel and the draw channel become output lists. -/

inductive SocketCmd where
  | Reconnect
  | SendString (s : String)
  | SendJson (j : JsonValue)

/-- The `ha_rx` arm body: extract `event.data.entity_id`; if it is tracked and
`event.data.new_state.state` extracts, update the store and report a change. -/
def handle_ha_event (states : Store) (json : JsonValue) : Store × Bool :=
  match traverse json ["event", "data", "entity_id"] with
  | some s =>
    if states.containsKey s then
      match traverse json ["event", "data", "new_state", "state"] with
      | some v => (states.insert s v, true)
      | none => (states, false)
    else (states, false)
  | none => (states, false)

/-- The `button_rx` arm body: every `Button` binding whose button id matches
gets its current on/off comparison evaluated; the off action is sent when on,
the on action when off, serialized with the process-wide counter. -/
def button_commands (ha_config : List HAConnect) (states : Store)
    (the_button : Nat) (counter : Int) : List SocketCmd × Int :=
  match ha_config with
  | [] => ([], counter)
  | c :: rest =>
    match c with
    | .Button button _ _ _ _ action_on action_off _ =>
      if button = the_button then
        let isOn := c.is_on states
        let cmd := if isOn then action_off else action_on
        let p := cmd.as_json counter
        let q := button_commands rest states the_button p.2
        (.SendJson p.1 :: q.1, q.2)
      else button_commands rest states the_button counter
    | _ => button_commands rest states the_button counter

/-- The actions the button arm selects, in order: for each matching `Button`
binding, the off action when its comparison currently reads on, the on action
otherwise.  A pure function of the binding list and the State Store. -/
def selected_actions (ha_config : List HAConnect) (states : Store)
    (the_button : Nat) : List HAAction :=
  ha_config.filterMap (fun c =>
    match c with
    | .Button button _ _ _ _ action_on action_off _ =>
      if button = the_button then
        some (if c.is_on states then action_off else action_on)
      else none
    | _ => none)

inductive LoopEvent where
  | buttonPress (b : Nat)
  | haMessage (json : JsonValue)

/-- One `select!` dispatch of the orchestrator loop: takes the loop-local
state (State Store, Render Cache, request-id counter) and an event, returns
the new state together with the outbound socket commands and draw
instructions produced. -/
def loop_step (ha_config : List HAConnect) (states : Store) (last_state : Store)
    (counter : Int) (ev : LoopEvent) :
    Store × Store × List SocketCmd × List DrawCmd × Int :=
  match ev with
  | .buttonPress b =>
    let p := button_commands ha_config states b counter
    (states, last_state, p.1, [], p.2)
  | .haMessage json =>
    let p := handle_ha_event states json
    if p.2 then
      let q := render_states ha_config p.1 last_state
      (p.1, q.1, [], q.2, counter)
    else (p.1, last_state, [], [], counter)

/-! ## Button decoder (src/buttons.rs)

`reading_to_button` maps a raw `u16` ADC sample to a button index through
three gapped threshold bands.  `button_loop` keeps the per-button pressed
flags across iterations and sends one event per false→true flag transition.
The initial sample (consumed into `cur` before the loop, unused by the edge
detection) is not part of the modelled reading sequence; the initial flags
are all false. -/

def reading_to_button (reading : Nat) : Option Nat :=
  if 700 < reading ∧ reading < 1000 then some 2
  else if 1800 < reading ∧ reading < 2200 then some 1
  else if 2300 < reading ∧ reading < 2600 then some 0
  else none

/-- The `[bool; 3]` pressed-flag array. -/
structure BFlags where
  b0 : Bool
  b1 : Bool
  b2 : Bool
deriving DecidableEq

/-- `this`: the flag array with exactly the decoded button set. -/
def flagsOf (now : Option Nat) : BFlags :=
  match now with
  | some 0 => ⟨true, false, false⟩
  | some 1 => ⟨false, true, false⟩
  | some 2 => ⟨false, false, true⟩
  | _ => ⟨false, false, false⟩

/-- One iteration of `button_loop`: decode the sample, and when the flag array
changed, send the index of every flag that rose and store the new array. -/
def buttonStep (last : BFlags) (reading : Nat) : BFlags × List Nat :=
  let this := flagsOf (reading_to_button reading)
  if last ≠ this then
    (this,
     (if this.b0 ∧ ¬ last.b0 then [0] else []) ++
     (if this.b1 ∧ ¬ last.b1 then [1] else []) ++
     (if this.b2 ∧ ¬ last.b2 then [2] else []))
  else (last, [])

def buttonEvents (last : BFlags) : List Nat → List Nat
  | [] => []
  | r :: rs =>
    let p := buttonStep last r
    p.2 ++ buttonEvents p.1 rs

/-- The events `button_loop` sends over a sequence of loop readings. -/
def button_loop_events (readings : List Nat) : List Nat :=
  buttonEvents ⟨false, false, false⟩ readings

/-- Specification-side event stream: one event, carrying the band's button
index, at the first sample of every maximal run of consecutive samples
decoding to the same non-empty band; `prev` is the band of the sample before
the remaining list (`none` before the first sample). -/
def runStartEvents (prev : Option Nat) : List Nat → List Nat
  | [] => []
  | r :: rs =>
    let b := reading_to_button r
    (match b with
     | some v => if b ≠ prev then [v] else []
     | none => []) ++ runStartEvents b rs

/-! ## Session manager (src/wifi.rs lines 45-165)

Two pieces.  First the websocket event callback `socket_to_me`, a pure
function from a websocket event to the socket commands it enqueues and the
decoded frames it forwards to the `ha_tx` channel.  The `Text` case runs
`json::parse` on the frame; the parse outcome is the embedded input. -/

inductive WSInput where
  | ioError
  | connected
  | disconnected
  | text (parsed : Option JsonValue)
  | other

structure WSOutputs where
  cmds : List SocketCmd
  forwarded : List JsonValue

def auth_msg (auth_token : String) : JsonValue :=
  .obj [("type", .str "auth"), ("access_token", .str auth_token)]

def subscribe_msg : JsonValue :=
  .obj [("id", .num 42), ("type", .str "subscribe_events")]

def socket_to_me (auth_token : String) (input : WSInput) : WSOutputs :=
  match input with
  | .ioError => ⟨[.Reconnect], []⟩
  | .connected => ⟨[.SendJson (auth_msg auth_token)], []⟩
  | .disconnected => ⟨[.Reconnect], []⟩
  | .text parsed =>
    match parsed with
    | some json =>
      if jsonEqStringValue (json.index "type") "auth_ok" then
        ⟨[.SendJson subscribe_msg], []⟩
      else ⟨[], [json]⟩
    | none => ⟨[], []⟩
  | .other => ⟨[], []⟩

/-! Second, the `handle_websocket` command loop.  Its loop-local state is the
optional socket client (a `Bool`: is a session live), the pending command
queue (the unbounded `mpsc` channel feeding `socket_rx`), and — as the
observable output — the frames actually written to the socket.  One loop
iteration: when no client exists, attempt a connection (and only sleep on
failure — the command queue is not touched); when a client exists, receive
one command and act on it.  The blocking `recv` on an empty queue is modelled
as the iteration completing with nothing processed. -/

inductive Frame where
  | text (s : String)
  | json (j : JsonValue)

structure WSState where
  connected : Bool
  queue : List SocketCmd
  sent : List Frame

def ws_iter (st : WSState) (connectOk sendOk : Bool) : WSState :=
  let st1 := if st.connected then st else { st with connected := connectOk }
  if st1.connected then
    match st1.queue with
    | [] => st1
    | cmd :: rest =>
      match cmd with
      | .Reconnect => { st1 with connected := false, queue := rest }
      | .SendString s =>
        if sendOk then { st1 with queue := rest, sent := st1.sent ++ [.text s] }
        else { st1 with connected := false, queue := rest }
      | .SendJson j =>
        if sendOk then { st1 with queue := rest, sent := st1.sent ++ [.json j] }
        else { st1 with connected := false, queue := rest }
  else st1

/-! ## Helper lemmas -/

theorem traverse_eq_getPath (path : List String) (json : JsonValue) :
    traverse json path = (getPath json path).bind (fun v =>
      match v with
      | .str s => some s
      | .short s => some s
      | _ => none) := by
  induction path generalizing json with
  | nil => cases json <;> rfl
  | cons item rest ih =>
    cases json with
    | obj fields =>
      rw [traverse, getPath]
      cases fields.lookup item with
      | none => rfl
      | some v => exact ih v
    | null => rfl
    | short s => rfl
    | str s => rfl
    | num n => rfl
    | boolean b => rfl
    | arr elems => rfl

/-- The value at a path is present but not a string: `traverse` extracts
nothing. -/
theorem traverse_of_getPath_not_string (path : List String) (json v : JsonValue)
    (h : getPath json path = some v) (hv : v.isStringLike = false) :
    traverse json path = none := by
  rw [traverse_eq_getPath, h]
  cases v <;> simp_all [JsonValue.isStringLike]

/-! ## Claim theorems -/

/-- Claim C4: applying a remote delta whose entity identity is not a tracked
key of the State Store never mutates the store, reports no change, and
triggers no re-render (no draw instructions, no outbound commands), for every
store contents and every delta payload. -/
theorem apply_delta_untracked_noop (ha_config : List HAConnect)
    (states last_state : Store) (counter : Int) (json : JsonValue) (s : String)
    (hs : traverse json ["event", "data", "entity_id"] = some s)
    (ht : states.containsKey s = false) :
    handle_ha_event states json = (states, false) ∧
    loop_step ha_config states last_state counter (.haMessage json) =
      (states, last_state, [], [], counter) := by
  have h1 : handle_ha_event states json = (states, false) := by
    rw [handle_ha_event, hs]
    simp [ht]
  refine ⟨h1, ?_⟩
  rw [loop_step, h1]
  simp

/-- Witness for C4 at a concrete untracked identity. -/
theorem apply_delta_untracked_noop_witness :
    handle_ha_event (Store.ofList [("sensor.x", "1")])
        (.obj [("event", .obj [("data", .obj [("entity_id", .short "sensor.y"),
          ("new_state", .obj [("state", .short "5")])])])]) =
      (Store.ofList [("sensor.x", "1")], false) :=
  (apply_delta_untracked_noop [] (Store.ofList [("sensor.x", "1")]) Store.empty
    1024 (.obj [("event", .obj [("data", .obj [("entity_id", .short "sensor.y"),
      ("new_state", .obj [("state", .short "5")])])])]) "sensor.y" rfl rfl).1

/-- Claim C10: a decoded remote event whose value at the fixed path
`event.data.entity_id` or `event.data.new_state.state` is present but not a
JSON string never mutates the State Store and never triggers a re-render,
even when the entity identity is tracked. -/
theorem non_string_path_no_mutation (ha_config : List HAConnect)
    (states last_state : Store) (counter : Int) (json : JsonValue) :
    (∀ v, getPath json ["event", "data", "entity_id"] = some v →
       v.isStringLike = false →
       loop_step ha_config states last_state counter (.haMessage json) =
         (states, last_state, [], [], counter)) ∧
    (∀ s v, traverse json ["event", "data", "entity_id"] = some s →
       getPath json ["event", "data", "new_state", "state"] = some v →
       v.isStringLike = false →
       loop_step ha_config states last_state counter (.haMessage json) =
         (states, last_state, [], [], counter)) := by
  constructor
  · intro v hv hns
    have h0 : traverse json ["event", "data", "entity_id"] = none :=
      traverse_of_getPath_not_string _ _ _ hv hns
    have h1 : handle_ha_event states json = (states, false) := by
      rw [handle_ha_event, h0]
    rw [loop_step, h1]
    simp
  · intro s v hs hv hns
    have h0 : traverse json ["event", "data", "new_state", "state"] = none :=
      traverse_of_getPath_not_string _ _ _ hv hns
    have h1 : handle_ha_event states json = (states, false) := by
      rw [handle_ha_event, hs, h0]
      cases states.containsKey s <;> simp
    rw [loop_step, h1]
    simp

/-- Witness for C10: a tracked identity whose new state is a JSON number. -/
theorem non_string_path_no_mutation_witness :
    loop_step [] (Store.ofList [("sensor.x", "1")]) Store.empty 1024
        (.haMessage (.obj [("event", .obj [("data", .obj
          [("entity_id", .short "sensor.x"),
           ("new_state", .obj [("state", .num 5)])])])])) =
      (Store.ofList [("sensor.x", "1")], Store.empty, [], [], 1024) :=
  (non_string_path_no_mutation [] (Store.ofList [("sensor.x", "1")]) Store.empty
    1024 (.obj [("event", .obj [("data", .obj
      [("entity_id", .short "sensor.x"),
       ("new_state", .obj [("state", .num 5)])])])])).2 "sensor.x" (.num 5)
    rfl rfl rfl

/-- Claim C5: a Toggle binding whose comparison value is the integer `1` reads
as on against tracked string value `"1"`, and as off against `"1.0"`, `"on"`,
and a missing tracked value (the string is parsed as an `i64` before the
equality test). -/
theorem toggle_int_coercion (button : Nat) (ha_id text_on text_off : String)
    (action_on action_off : HAAction) (color : Nat) :
    (∀ st : Store, st.get ha_id = some "1" →
      (HAConnect.Button button ha_id (.Int 1) text_on text_off action_on
        action_off color).is_on st = true) ∧
    (∀ st : Store, st.get ha_id = some "1.0" →
      (HAConnect.Button button ha_id (.Int 1) text_on text_off action_on
        action_off color).is_on st = false) ∧
    (∀ st : Store, st.get ha_id = some "on" →
      (HAConnect.Button button ha_id (.Int 1) text_on text_off action_on
        action_off color).is_on st = false) ∧
    (∀ st : Store, st.get ha_id = none →
      (HAConnect.Button button ha_id (.Int 1) text_on text_off action_on
        action_off color).is_on st = false) := by
  refine ⟨?_, ?_, ?_, ?_⟩ <;> intro st h <;>
    rw [HAConnect.is_on, h] <;> decide

/-- Witness for C5 at concrete stores. -/
theorem toggle_int_coercion_witness :
    (HAConnect.Button 0 "switch.a" (.Int 1) "ON" "OFF" (.Scene "s") (.Scene "t")
        0).is_on (Store.ofList [("switch.a", "1")]) = true ∧
    (HAConnect.Button 0 "switch.a" (.Int 1) "ON" "OFF" (.Scene "s") (.Scene "t")
        0).is_on (Store.ofList [("switch.a", "1.0")]) = false ∧
    (HAConnect.Button 0 "switch.a" (.Int 1) "ON" "OFF" (.Scene "s") (.Scene "t")
        0).is_on (Store.ofList [("switch.a", "on")]) = false ∧
    (HAConnect.Button 0 "switch.a" (.Int 1) "ON" "OFF" (.Scene "s") (.Scene "t")
        0).is_on (Store.ofList []) = false :=
  ⟨(toggle_int_coercion 0 "switch.a" "ON" "OFF" (.Scene "s") (.Scene "t") 0).1
      _ rfl,
   (toggle_int_coercion 0 "switch.a" "ON" "OFF" (.Scene "s") (.Scene "t") 0).2.1
      _ rfl,
   (toggle_int_coercion 0 "switch.a" "ON" "OFF" (.Scene "s") (.Scene "t")
      0).2.2.1 _ rfl,
   (toggle_int_coercion 0 "switch.a" "ON" "OFF" (.Scene "s") (.Scene "t")
      0).2.2.2 _ rfl⟩

/-- Claim C7: a text frame decoding with `type = "auth_ok"` makes the Session
Manager send exactly the subscription request with fixed id 42 and forward
nothing; any other successfully parsed frame is forwarded unmodified to the
decoded-event channel with no commands; a frame that fails to parse is
dropped without any command (in particular without a reconnect). -/
theorem socket_text_frame_handling (tok : String) (j : JsonValue) :
    (jsonEqStringValue (j.index "type") "auth_ok" = true →
       socket_to_me tok (.text (some j)) = ⟨[.SendJson subscribe_msg], []⟩) ∧
    (jsonEqStringValue (j.index "type") "auth_ok" = false →
       socket_to_me tok (.text (some j)) = ⟨[], [j]⟩) ∧
    socket_to_me tok (.text none) = ⟨[], []⟩ ∧
    subscribe_msg.index "id" = .num 42 := by
  refine ⟨?_, ?_, rfl, rfl⟩ <;> intro h <;> rw [socket_to_me, h] <;> rfl

/-- Witness for C7 on a concrete `auth_ok` frame and a concrete event frame. -/
theorem socket_text_frame_handling_witness :
    socket_to_me "tok" (.text (some (.obj [("type", .short "auth_ok"),
        ("ha_version", .short "1")]))) = ⟨[.SendJson subscribe_msg], []⟩ ∧
    socket_to_me "tok" (.text (some (.obj [("type", .short "event")]))) =
      ⟨[], [.obj [("type", .short "event")]]⟩ :=
  ⟨(socket_text_frame_handling "tok" _).1 rfl,
   (socket_text_frame_handling "tok" _).2.1 rfl⟩

/-- Counterexample to claim C2: with no session live, a reconnect signal
sitting in the outbound command channel is not drained (the channel is not
read at all while disconnected), and a payload send issued while disconnected
is not dropped — it stays queued and is written to the socket once a session
is reestablished. -/
theorem ws_disconnected_claim_cex :
    (ws_iter ⟨false, [SocketCmd.Reconnect], []⟩ false true =
      ⟨false, [SocketCmd.Reconnect], []⟩) ∧
    ((ws_iter ⟨false, [SocketCmd.SendJson subscribe_msg], []⟩ true true).sent =
      [Frame.json subscribe_msg]) :=
  ⟨rfl, rfl⟩

/-- Claim C2 as amended: while no session is live the Session Manager does not
read the outbound command channel at all — reconnect signals and payload
sends alike stay queued while it retries the connection — and a payload send
issued while disconnected is delivered over the socket once a session is
reestablished (one command per loop iteration), not dropped. -/
theorem ws_disconnected_defers (q : List SocketCmd) (sent : List Frame)
    (b : Bool) (j : JsonValue) (rest : List SocketCmd) :
    ws_iter ⟨false, q, sent⟩ false b = ⟨false, q, sent⟩ ∧
    ws_iter ⟨false, SocketCmd.SendJson j :: rest, sent⟩ true true =
      ⟨true, rest, sent ++ [Frame.json j]⟩ :=
  ⟨rfl, rfl⟩

/-- Claim C6: a Mirror (`Line`) binding with the rounding flag set renders the
template followed by the tracked value parsed as a float and rounded to the
nearest integer — tracked value `"21.6"` renders `template ++ "22"` — and a
non-parseable tracked value such as `"abc"` renders the bare template (empty
numeric suffix) instead of erroring.  The hypotheses on the Render Cache put
the binding in the emitting case so the produced instruction is visible. -/
theorem mirror_rounding_render (line : Nat) (ha_id text : String) (color : Nat)
    (states last_state : Store) :
    (states.get ha_id = some "21.6" →
       last_state.get ha_id ≠ some (text ++ "22") →
       (renderStep states last_state (.Line line ha_id text true color)).2 =
         [DrawCmd.Text (.Pos 10 (30 * ((line : Int) + 2))) (some .profont24)
            (text ++ "22") color (some WHITE)]) ∧
    (states.get ha_id = some "abc" →
       last_state.get ha_id ≠ some text →
       (renderStep states last_state (.Line line ha_id text true color)).2 =
         [DrawCmd.Text (.Pos 10 (30 * ((line : Int) + 2))) (some .profont24)
            text color (some WHITE)]) := by
  constructor
  · intro h1 h2
    have hsfx : ((parse_f64_round "21.6").map (fun f => toString f)).getD "" =
        "22" := by decide
    have hl : line_render text true "21.6" = text ++ "22" := by
      rw [line_render, if_pos rfl, hsfx]
    rw [renderStep, h1]
    simp only [hl]
    rw [if_pos (Ne.symm h2)]
  · intro h1 h2
    have hsfx : ((parse_f64_round "abc").map (fun f => toString f)).getD "" =
        "" := by decide
    have hl : line_render text true "abc" = text := by
      rw [line_render, if_pos rfl, hsfx, String.append_empty]
    rw [renderStep, h1]
    simp only [hl]
    rw [if_pos (Ne.symm h2)]

/-- Witness for C6 with template `"Temp "` against an empty Render Cache. -/
theorem mirror_rounding_render_witness :
    (renderStep (Store.ofList [("sensor.t", "21.6")]) Store.empty
        (.Line 1 "sensor.t" "Temp " true 0)).2 =
      [DrawCmd.Text (.Pos 10 90) (some .profont24) ("Temp " ++ "22") 0
        (some WHITE)] ∧
    (renderStep (Store.ofList [("sensor.t", "abc")]) Store.empty
        (.Line 1 "sensor.t" "Temp " true 0)).2 =
      [DrawCmd.Text (.Pos 10 90) (some .profont24) "Temp " 0 (some WHITE)] :=
  ⟨(mirror_rounding_render 1 "sensor.t" "Temp " 0
      (Store.ofList [("sensor.t", "21.6")]) Store.empty).1 rfl (by decide),
   (mirror_rounding_render 1 "sensor.t" "Temp " 0
      (Store.ofList [("sensor.t", "abc")]) Store.empty).2 rfl (by decide)⟩

/-! Lemmas for claim C8: the request-id counter. -/

theorem i64_wrap_fixed (x : Int) (h1 : -(2 ^ 63) ≤ x) (h2 : x < 2 ^ 63) :
    i64_wrap x = x := by
  rw [i64_wrap]
  omega

theorem i64_wrap_add (x y : Int) : i64_wrap (i64_wrap x + y) = i64_wrap (x + y) := by
  rw [i64_wrap, i64_wrap, i64_wrap]
  omega

/-- The `id` stamped by `as_json` is the counter value it was called with, and
the counter advances by one with `i64` wrap-around. -/
theorem as_json_id (a : HAAction) (c : Int) :
    json_id (a.as_json c).1 = c ∧ (a.as_json c).2 = i64_wrap (c + 1) := by
  cases a <;> exact ⟨rfl, rfl⟩

theorem serialize_all_ids (actions : List HAAction) (c0 : Int) :
    ((serialize_all actions (i64_wrap c0)).1).map json_id =
      (List.range actions.length).map (fun k : Nat => i64_wrap (c0 + (k : Int))) := by
  induction actions generalizing c0 with
  | nil => rfl
  | cons a rest ih =>
    rw [serialize_all]
    simp only [List.map_cons, List.length_cons, List.range_succ_eq_map,
      List.map_map]
    congr 1
    · rw [(as_json_id a (i64_wrap c0)).1]
      simp [i64_wrap_add]
    · rw [(as_json_id a (i64_wrap c0)).2, i64_wrap_add]
      rw [ih (c0 + 1)]
      apply List.map_congr_left
      intro k _
      simp only [Function.comp]
      congr 1
      push_cast
      ring

/-- Claim C8: request identifiers come from a single process-wide counter with
base 1024: the first dispatch is stamped 1024, the k-th dispatch is stamped
1024 + k, and within any realizable process lifetime (fewer than 2^63 - 1024
dispatches, the point where the wrapping `AtomicI64` would overflow)
identifiers are strictly increasing and never reused. -/
theorem action_ids_monotone (actions : List HAAction) (i j : Nat) (hij : i < j)
    (hj : j < actions.length) (hbound : (j : Int) < 2 ^ 63 - 1024) :
    (ids_list actions)[i]? = some (1024 + (i : Int)) ∧
    (ids_list actions)[j]? = some (1024 + (j : Int)) ∧
    (1024 + (i : Int)) < 1024 + (j : Int) ∧
    (1024 + (i : Int)) ≠ 1024 + (j : Int) ∧
    (ids_list actions)[0]? = some 1024 := by
  have hbase : (HAACTION_ID_INIT : Int) = i64_wrap 1024 := by
    rw [HAACTION_ID_INIT, i64_wrap_fixed] <;> norm_num
  have hids : ids_list actions =
      (List.range actions.length).map (fun k : Nat => i64_wrap (1024 + (k : Int))) := by
    rw [ids_list, hbase, serialize_all_ids]
  have hget : ∀ k : Nat, k < actions.length → (k : Int) < 2 ^ 63 - 1024 →
      (ids_list actions)[k]? = some (1024 + (k : Int)) := by
    intro k hk hkb
    rw [hids, List.getElem?_map, List.getElem?_range hk]
    simp only [Option.map_some']
    rw [i64_wrap_fixed (1024 + k) (by omega) (by omega)]
  have hi : (i : Int) < 2 ^ 63 - 1024 := by
    have : (i : Int) < (j : Int) := by exact_mod_cast hij
    omega
  refine ⟨hget i (lt_trans hij hj) hi, hget j hj hbound, ?_, ?_,
    hget 0 (by omega) (by norm_num)⟩
  · have : (i : Int) < (j : Int) := by exact_mod_cast hij
    omega
  · have : (i : Int) < (j : Int) := by exact_mod_cast hij
    omega

/-- Witness for C8 on a concrete two-dispatch sequence. -/
theorem action_ids_monotone_witness :
    (ids_list [HAAction.Scene "a", HAAction.Service "light.x" "turn_on"])[0]? =
      some 1024 ∧
    (ids_list [HAAction.Scene "a", HAAction.Service "light.x" "turn_on"])[1]? =
      some 1025 := by
  have h := action_ids_monotone
    [HAAction.Scene "a", HAAction.Service "light.x" "turn_on"] 0 1
    (by decide) (by decide) (by decide)
  exact ⟨h.2.2.2.2, by simpa using h.2.1⟩

/-- The commands the button arm enqueues are exactly the serializations of the
actions selected by the pure on/off lookup, with the counter threaded through;
lemma for claim C9. -/
theorem button_commands_eq (cfg : List HAConnect) (states : Store) (b : Nat)
    (counter : Int) :
    button_commands cfg states b counter =
      (((serialize_all (selected_actions cfg states b) counter).1).map
         SocketCmd.SendJson,
       (serialize_all (selected_actions cfg states b) counter).2) := by
  induction cfg generalizing counter with
  | nil => rfl
  | cons c rest ih =>
    cases c with
    | Text line text color => exact ih counter
    | Line line ha_id text make_int color => exact ih counter
    | Button button ha_id cmp t_on t_off a_on a_off color =>
      by_cases hb : button = b
      · rw [button_commands, if_pos hb]
        have hsel : selected_actions
            (.Button button ha_id cmp t_on t_off a_on a_off color :: rest)
              states b =
            (if (HAConnect.Button button ha_id cmp t_on t_off a_on a_off
                color).is_on states then a_off else a_on) ::
              selected_actions rest states b := by
          rw [selected_actions, selected_actions, List.filterMap_cons]
          simp [hb]
        rw [hsel, serialize_all]
        simp only [ih]
        rfl
      · rw [button_commands, if_neg hb]
        have hsel : selected_actions
            (.Button button ha_id cmp t_on t_off a_on a_off color :: rest)
              states b = selected_actions rest states b := by
          rw [selected_actions, selected_actions, List.filterMap_cons]
          simp [hb]
        rw [hsel]
        exact ih counter

/-- Claim C9: handling a button event — finding the matching Toggle bindings,
evaluating their on/off comparisons against the State Store, and enqueuing
the selected actions as outbound commands — leaves the State Store and the
Render Cache unchanged, emits no draw instructions, and performs no
optimistic local update; the enqueued commands are a pure function of the
binding list and the current store. -/
theorem button_dispatch_pure (cfg : List HAConnect) (states last_state : Store)
    (counter : Int) (b : Nat) :
    loop_step cfg states last_state counter (.buttonPress b) =
      (states, last_state,
       ((serialize_all (selected_actions cfg states b) counter).1).map
         SocketCmd.SendJson,
       [], (serialize_all (selected_actions cfg states b) counter).2) := by
  rw [loop_step]
  rw [button_commands_eq]

/-! Lemmas for claim C3: the button decoder. -/

theorem reading_to_button_cases (r : Nat) :
    reading_to_button r = none ∨ reading_to_button r = some 0 ∨
    reading_to_button r = some 1 ∨ reading_to_button r = some 2 := by
  rw [reading_to_button]
  split_ifs <;> simp

theorem buttonStep_flagsOf (prev : Option Nat) (r : Nat)
    (hp : prev = none ∨ prev = some 0 ∨ prev = some 1 ∨ prev = some 2) :
    buttonStep (flagsOf prev) r =
      (flagsOf (reading_to_button r),
       match reading_to_button r with
       | some v => if reading_to_button r ≠ prev then [v] else []
       | none => []) := by
  rcases reading_to_button_cases r with h | h | h | h <;>
    rcases hp with hp | hp | hp | hp <;>
      subst hp <;> rw [buttonStep, h] <;> simp [flagsOf]

theorem buttonEvents_runStarts (readings : List Nat) (prev : Option Nat)
    (hp : prev = none ∨ prev = some 0 ∨ prev = some 1 ∨ prev = some 2) :
    buttonEvents (flagsOf prev) readings = runStartEvents prev readings := by
  induction readings generalizing prev with
  | nil => rfl
  | cons r rs ih =>
    rw [buttonEvents, runStartEvents, buttonStep_flagsOf prev r hp]
    exact congrArg _ (ih (reading_to_button r) (reading_to_button_cases r))

/-- Claim C3: over every sequence of loop readings the Button Decoder emits
exactly one event — carrying the band's button index — at the first sample of
each maximal run of consecutive samples decoding to the same non-empty
threshold band (a run immediately following samples of a different band, of
no band, or the start of the sequence); a reading of 0 decodes below all
bands, and any reading decoding to no band (0 or a gap between bands) emits
no event from any decoder state. -/
theorem button_decoder_edge_events :
    (∀ readings : List Nat,
       button_loop_events readings = runStartEvents none readings) ∧
    reading_to_button 0 = none ∧
    (∀ (last : BFlags) (r : Nat), reading_to_button r = none →
       (buttonStep last r).2 = []) := by
  refine ⟨?_, rfl, ?_⟩
  · intro readings
    exact buttonEvents_runStarts readings none (Or.inl rfl)
  · intro last r h
    rw [buttonStep, h]
    cases last with
    | mk b0 b1 b2 => cases b0 <;> cases b1 <;> cases b2 <;> decide

/-- Witness for C3: a gap reading (1200) emits nothing even from a pressed
state, and a concrete reading sequence matches the run-start event stream. -/
theorem button_decoder_edge_events_witness :
    reading_to_button 1200 = none ∧
    (buttonStep ⟨false, false, true⟩ 1200).2 = [] ∧
    button_loop_events [0, 800, 800, 1500, 800, 2000, 2400, 0] =
      runStartEvents none [0, 800, 800, 1500, 800, 2000, 2400, 0] :=
  ⟨by decide,
   button_decoder_edge_events.2.2 ⟨false, false, true⟩ 1200 (by decide),
   button_decoder_edge_events.1 [0, 800, 800, 1500, 800, 2000, 2400, 0]⟩

/-! Lemmas for claim C1: the differential renderer as a cache fixpoint. -/

theorem renderStep_desired_none (states ls : Store) (c : HAConnect)
    (h : desired states c = none) : renderStep states ls c = (ls, []) := by
  cases c with
  | Text line text color => exact absurd h (by rw [desired]; simp)
  | Line line ha_id text make_int color =>
    rw [desired, Option.map_eq_none'] at h
    rw [renderStep, h]
  | Button button ha_id cmp t_on t_off a_on a_off color =>
    exact absurd h (by rw [desired]; simp)

theorem renderStep_noop (states ls : Store) (c : HAConnect) (s : String)
    (hd : desired states c = some s) (hc : ls.get c.ha_id = some s) :
    renderStep states ls c = (ls, []) := by
  cases c with
  | Text line text color =>
    rw [desired, Option.some.injEq] at hd
    subst hd
    simp only [HAConnect.ha_id] at hc
    rw [renderStep, if_neg (by rw [hc]; simp)]
  | Line line ha_id text make_int color =>
    rw [desired, Option.map_eq_some'] at hd
    obtain ⟨st, hst, hfs⟩ := hd
    simp only [HAConnect.ha_id] at hc
    rw [renderStep, hst]
    simp only [hfs]
    rw [if_neg (by rw [hc]; simp)]
  | Button button ha_id cmp t_on t_off a_on a_off color =>
    rw [desired, Option.some.injEq] at hd
    simp only [HAConnect.ha_id] at hc
    rw [renderStep]
    simp only [hd]
    rw [if_neg (by rw [hc]; simp)]

theorem renderStep_get_self (states ls : Store) (c : HAConnect) (s : String)
    (hd : desired states c = some s) :
    ((renderStep states ls c).1).get c.ha_id = some s := by
  cases c with
  | Text line text color =>
    rw [desired, Option.some.injEq] at hd
    subst hd
    simp only [HAConnect.ha_id]
    rw [renderStep]
    by_cases hg : ls.get text = some text
    · rw [if_neg (by rw [hg]; simp)]
      exact hg
    · rw [if_pos (by intro hcon; exact hg hcon.symm)]
      exact Store.get_insert_self ls text text
  | Line line ha_id text make_int color =>
    rw [desired, Option.map_eq_some'] at hd
    obtain ⟨st, hst, hfs⟩ := hd
    simp only [HAConnect.ha_id]
    rw [renderStep, hst]
    simp only [hfs]
    by_cases hg : ls.get ha_id = some s
    · rw [if_neg (by rw [hg]; simp)]
      exact hg
    · rw [if_pos (by intro hcon; exact hg hcon.symm)]
      exact Store.get_insert_self ls ha_id s
  | Button button ha_id cmp t_on t_off a_on a_off color =>
    rw [desired, Option.some.injEq] at hd
    simp only [HAConnect.ha_id]
    rw [renderStep]
    simp only [hd]
    by_cases hg : ls.get ha_id = some s
    · rw [if_neg (by rw [hg]; simp)]
      exact hg
    · rw [if_pos (by intro hcon; exact hg hcon.symm)]
      exact Store.get_insert_self ls ha_id s

theorem renderStep_get_ne (states ls : Store) (c : HAConnect) (k : String)
    (hk : k ≠ c.ha_id) : ((renderStep states ls c).1).get k = ls.get k := by
  cases c with
  | Text line text color =>
    simp only [HAConnect.ha_id] at hk
    rw [renderStep]
    by_cases hg : some text ≠ ls.get text
    · rw [if_pos hg]
      exact Store.get_insert_ne ls text text k hk
    · rw [if_neg hg]
  | Line line ha_id text make_int color =>
    simp only [HAConnect.ha_id] at hk
    rw [renderStep]
    cases hst : states.get ha_id with
    | none => rfl
    | some st =>
      dsimp only
      by_cases hg : some (line_render text make_int st) ≠ ls.get ha_id
      · rw [if_pos hg]
        exact Store.get_insert_ne ls ha_id _ k hk
      · rw [if_neg hg]
  | Button button ha_id cmp t_on t_off a_on a_off color =>
    simp only [HAConnect.ha_id] at hk
    rw [renderStep]
    by_cases hg : some (button_disp cmp (states.get ha_id) t_on t_off) ≠
        ls.get ha_id
    · rw [if_pos hg]
      exact Store.get_insert_ne ls ha_id _ k hk
    · rw [if_neg hg]

theorem render_states_get_notMem (cfg : List HAConnect) (states ls : Store)
    (k : String) (hk : k ∉ cfg.map HAConnect.ha_id) :
    ((render_states cfg states ls).1).get k = ls.get k := by
  induction cfg generalizing ls with
  | nil => rfl
  | cons c rest ih =>
    rw [List.map_cons, List.mem_cons] at hk
    push_neg at hk
    rw [render_states]
    simp only []
    rw [ih _ hk.2]
    exact renderStep_get_ne states ls c k hk.1

/-- After one `render_states` pass the Render Cache is a fixpoint: a second
pass over the same State Store changes nothing and emits nothing, provided
the bindings' render keys are pairwise distinct. -/
theorem render_states_fixpoint (cfg : List HAConnect) (states : Store)
    (h : (cfg.map HAConnect.ha_id).Nodup) (ls : Store) :
    render_states cfg states (render_states cfg states ls).1 =
      ((render_states cfg states ls).1, []) := by
  induction cfg generalizing ls with
  | nil => rfl
  | cons c rest ih =>
    rw [List.map_cons, List.nodup_cons] at h
    have hstep : renderStep states ((render_states rest states
        (renderStep states ls c).1).1) c =
        ((render_states rest states (renderStep states ls c).1).1, []) := by
      cases hd : desired states c with
      | none => exact renderStep_desired_none _ _ _ hd
      | some s =>
        apply renderStep_noop _ _ _ _ hd
        rw [render_states_get_notMem _ _ _ _ h.1]
        exact renderStep_get_self _ _ _ _ hd
    have hih := ih h.2 ((renderStep states ls c).1)
    show render_states (c :: rest) states
        ((render_states rest states (renderStep states ls c).1).1) =
      ((render_states rest states (renderStep states ls c).1).1, [])
    rw [render_states]
    simp only [hstep, hih]
    rfl

/-- Counterexample to claim C1: two Mirror bindings referencing the same
entity identity share one Render Cache entry, so with an unchanged State
Store the second `render_states` run re-emits their draw instructions rather
than emitting none. -/
theorem render_twice_shared_key_cex :
    (render_states
        [.Line 0 "sensor.x" "A" false 0, .Line 1 "sensor.x" "B" false 0]
        (Store.ofList [("sensor.x", "1")])
        (render_states
          [.Line 0 "sensor.x" "A" false 0, .Line 1 "sensor.x" "B" false 0]
          (Store.ofList [("sensor.x", "1")]) Store.empty).1).2 ≠ [] := by
  decide

/-- Claim C1 as amended: running `render_states` twice with no intervening
State Store change produces zero draw instructions on the second run provided
the bindings' render keys (the static text of a Display binding, the entity
identity of a Mirror or Toggle binding) are pairwise distinct.  Two bindings
referencing the same entity identity violate that proviso and re-emit on
every run whenever their rendered texts differ. -/
theorem render_states_second_run_empty (cfg : List HAConnect)
    (states ls : Store) (h : (cfg.map HAConnect.ha_id).Nodup) :
    (render_states cfg states (render_states cfg states ls).1).2 = [] := by
  rw [render_states_fixpoint cfg states h ls]

/-- Witness for the amended C1 on a concrete two-binding layout with distinct
render keys. -/
theorem render_states_second_run_empty_witness :
    (render_states [.Text 0 "Hello" 0, .Line 1 "sensor.t" "T:" false 0]
        (Store.ofList [("sensor.t", "21")])
        (render_states [.Text 0 "Hello" 0, .Line 1 "sensor.t" "T:" false 0]
          (Store.ofList [("sensor.t", "21")]) Store.empty).1).2 = [] :=
  render_states_second_run_empty
    [.Text 0 "Hello" 0, .Line 1 "sensor.t" "T:" false 0]
    (Store.ofList [("sensor.t", "21")]) Store.empty (by decide)

end Homer
